import Mathlib

/-
Verification of the entraid-task-agent core pipeline: the command parser
(src/utils/openai_service.py), the Graph operations client
(src/utils/graph_service.py) and the orchestrator (src/app_orchestrator.py),
shallowly embedded in Lean 4.  Remote collaborators (the language model, the
HTTP Graph endpoint, the credential provider) appear as explicit parameters;
fallible Python code that raises exceptions is modelled with Except String.
-/

/- JSON-like values as they occur in parsed action descriptors: strings and
arrays of strings (the only shapes the pipeline reads from the model reply). -/
inductive Jv where
  | s : String → Jv
  | l : List String → Jv
deriving DecidableEq, Repr

/- Python truthiness for the values above: empty string and empty list are
falsy, everything else truthy. -/
def jvTruthy : Jv → Bool
  | Jv.s str => str ≠ ""
  | Jv.l xs => ¬ xs.isEmpty

/- Rendering a value into an f-string, as Python str() does; only the string
case is load-bearing in the messages the orchestrator builds. -/
def jvRender : Jv → String
  | Jv.s str => str
  | Jv.l xs => String.intercalate ", " xs

/- A decoded JSON object (Python dict) as an association list. -/
abbrev Dict := List (String × Jv)

/- Python d[k]: raises KeyError (whose str() is the quoted key) when absent. -/
def dGet (d : Dict) (k : String) : Except String Jv :=
  match d.lookup k with
  | some v => Except.ok v
  | none => Except.error ("\x27" ++ k ++ "\x27")

/- Python d.get(k, default). -/
def dGetD (d : Dict) (k : String) (dflt : Jv) : Jv :=
  (d.lookup k).getD dflt

/- Character constants used by the JSON extraction in parse_command. -/
def lbraceC : Char := Char.ofNat 123

def rbraceC : Char := Char.ofNat 125

def lbrackC : Char := Char.ofNat 91

def rbrackC : Char := Char.ofNat 93

def quoteC : Char := Char.ofNat 34

def colonC : Char := Char.ofNat 58

def commaC : Char := Char.ofNat 44

/- Whitespace skipping used by the model of json.loads. -/
def skipWs : List Char → List Char
  | [] => []
  | c :: rest =>
    if c = ' ' ∨ c = '\t' ∨ c = '\n' ∨ c = '\r' then skipWs rest else c :: rest

/- Scan the body of a JSON string literal up to its closing quote
(escape-free strings, which covers every literal this pipeline exchanges). -/
def scanString : List Char → Option (List Char × List Char)
  | [] => none
  | c :: rest =>
    if c = quoteC then some ([], rest)
    else
      match scanString rest with
      | some (acc, rem) => some (c :: acc, rem)
      | none => none

/- Parse the elements of a JSON array of strings, the opening bracket already
consumed; fuel bounds the recursion. -/
def parseStrList (fuel : Nat) (cs : List Char) : Option (List String × List Char) :=
  match fuel with
  | 0 => none
  | fuel + 1 =>
    match skipWs cs with
    | [] => none
    | c :: rest =>
      if c = rbrackC then some ([], rest)
      else if c = quoteC then
        match scanString rest with
        | none => none
        | some (sacc, rem) =>
          match skipWs rem with
          | [] => none
          | d :: rem2 =>
            if d = commaC then
              match parseStrList fuel rem2 with
              | some (xs, r) => some (String.mk sacc :: xs, r)
              | none => none
            else if d = rbrackC then some ([String.mk sacc], rem2)
            else none
      else none

/- Parse one JSON value: a string literal or an array of strings. -/
def parseVal (cs : List Char) : Option (Jv × List Char) :=
  match skipWs cs with
  | [] => none
  | c :: rest =>
    if c = quoteC then
      (scanString rest).map (fun p => (Jv.s (String.mk p.1), p.2))
    else if c = lbrackC then
      (parseStrList (rest.length + 1) rest).map (fun p => (Jv.l p.1, p.2))
    else none

/- Parse the members of a JSON object, the opening brace already consumed. -/
def parseMembers (fuel : Nat) (cs : List Char) : Option (Dict × List Char) :=
  match fuel with
  | 0 => none
  | fuel + 1 =>
    match skipWs cs with
    | [] => none
    | c :: rest =>
      if c = rbraceC then some ([], rest)
      else if c = quoteC then
        match scanString rest with
        | none => none
        | some (kacc, rem) =>
          match skipWs rem with
          | [] => none
          | d :: rem2 =>
            if d = colonC then
              match parseVal rem2 with
              | none => none
              | some (v, rem3) =>
                match skipWs rem3 with
                | [] => none
                | e :: rem4 =>
                  if e = commaC then
                    match parseMembers fuel rem4 with
                    | some (kvs, r) => some ((String.mk kacc, v) :: kvs, r)
                    | none => none
                  else if e = rbraceC then some ([(String.mk kacc, v)], rem4)
                  else none
            else none
      else none

/- Model of json.loads restricted to flat objects with string keys and
string or string-array values: the object shape this pipeline exchanges. -/
def jsonLoads (str : String) : Option Dict :=
  match skipWs str.toList with
  | [] => none
  | c :: rest =>
    if c = lbraceC then
      match parseMembers (rest.length + 1) rest with
      | some (kvs, rem) => if skipWs rem = [] then some kvs else none
      | none => none
    else none

/- Index of the last occurrence of a character, Python str.rfind. -/
def rfindIdx : List Char → Char → Option Nat
  | [], _ => none
  | c :: rest, t =>
    match rfindIdx rest t with
    | some i => some (i + 1)
    | none => if c = t then some 0 else none

/- The extraction step of parse_command: json_start = find of the first
opening brace, json_end = rfind of the last closing brace plus one; when
json_start is nonnegative and json_end exceeds it, the slice between them is
decoded, otherwise the whole (stripped) reply is. -/
def extractJsonChars (cs : List Char) : List Char :=
  match cs.findIdx? (fun c => c = lbraceC), rfindIdx cs rbraceC with
  | some st, some en => if st < en + 1 then (cs.drop st).take (en + 1 - st) else cs
  | some _, none => cs
  | none, _ => cs

/- Python str.strip whitespace: space, tab, newline, carriage return,
vertical tab and form feed. -/
def isPyWs (c : Char) : Bool :=
  c = ' ' ∨ c = '\t' ∨ c = '\n' ∨ c = '\r' ∨ c = Char.ofNat 11 ∨ c = Char.ofNat 12

/- Python str.strip: drop whitespace from both ends. -/
def stripChars (cs : List Char) : List Char :=
  ((cs.dropWhile isPyWs).reverse.dropWhile isPyWs).reverse

/- The string handed to json.loads by parse_command, including the initial
strip of the model reply. -/
def extractJson (reply : String) : String :=
  String.mk (extractJsonChars (stripChars reply.toList))

/- The validation of _validate_parsed_data: an action key must be present;
for create_app_registration an appName key must also be present. -/
def validateParsedData (d : Dict) : Bool :=
  match d.lookup "action" with
  | none => false
  | some a =>
    if a = Jv.s "create_app_registration" then
      match d.lookup "appName" with
      | none => false
      | some _ => true
    else true

/- Decode then validate: a decode failure or a failed validation both end as
None from parse_command (the raised ValueError is caught in its own body). -/
def decodeAndValidate (loads : String → Option Dict) (str : String) : Option Dict :=
  match loads str with
  | none => none
  | some d => if validateParsedData d then some d else none

/- parse_command from the model reply onward: extract the brace span or fall
back to the whole reply, decode, validate; any failure yields none. -/
def parseCommandFromReply (loads : String → Option Dict) (reply : String) : Option Dict :=
  decodeAndValidate loads (extractJson reply)

/- The prose-wrapped model reply from the testable-properties section. -/
def sureReply : String :=
  "Sure! \x7b\x22action\x22:\x22create_app_registration\x22,\x22appName\x22:\x22Foo\x22\x7d"

/- Token cache state of GraphService: the cached bearer token and its cached
expiry timestamp (datetimes modelled as integer timestamps in seconds). -/
structure TokenState where
  token : Option String
  tokenExpires : Option Int
deriving DecidableEq, Repr

/- What the credential provider returns from get_token: the token text and
expires_on (the quantity the code feeds into the expiry computation). -/
structure TokenResponse where
  token : String
  expiresOn : Int
deriving DecidableEq, Repr

/- GraphService._get_token: reuse the cached token when it is set, its expiry
is set and now is strictly before the expiry; otherwise fetch one token from
the credential provider and cache it, recording now plus expires_on minus a
300-second (5-minute) safety margin as the expiry.  The result carries the
returned token, the new cache state, and the number of credential fetches. -/
def getToken (resp : TokenResponse) (now : Int) (s : TokenState) : String × TokenState × Nat :=
  match s.token, s.tokenExpires with
  | some t, some e =>
    if t ≠ "" ∧ now < e then (t, s, 0)
    else (resp.token, ⟨some resp.token, some (now + (resp.expiresOn - 300))⟩, 1)
  | some _, none => (resp.token, ⟨some resp.token, some (now + (resp.expiresOn - 300))⟩, 1)
  | none, _ => (resp.token, ⟨some resp.token, some (now + (resp.expiresOn - 300))⟩, 1)

/- One named permission definition from the Graph service-principal catalog:
its display value and its stable identifier. -/
structure PermDef where
  value : String
  id : String
deriving DecidableEq, Repr

/- The permission catalog fetched from the Microsoft Graph service principal:
application roles and delegated OAuth2 scopes. -/
structure Catalog where
  appRoles : List PermDef
  oauth2PermissionScopes : List PermDef
deriving DecidableEq, Repr

/- The dot character. -/
def dotC : Char := Char.ofNat 46

/- Python in-operator on a single character: the string contains it. -/
def containsChar (cs : List Char) (t : Char) : Bool :=
  cs.any (fun c => c = t)

/- Python str.split on a single separator character: n separators yield
n plus one segments, empty segments included. -/
def splitOnChar : List Char → Char → List (List Char)
  | [], _ => [[]]
  | c :: rest, t =>
    if c = t then [] :: splitOnChar rest t
    else
      match splitOnChar rest t with
      | [] => [[c]]
      | seg :: segs => (c :: seg) :: segs

/- Python negative indexing scope_parts[-1]: the last segment. -/
def lastSeg : List (List Char) → List Char
  | [] => []
  | [seg] => seg
  | _ :: seg :: segs => lastSeg (seg :: segs)

/- Classification from add_required_permissions: default Application; when
the name contains a dot, Application exactly when the last dot-separated
segment is All, otherwise Delegated. -/
def permissionType (p : String) : String :=
  if containsChar p.toList dotC then
    if lastSeg (splitOnChar p.toList dotC) = "All".toList then "Application" else "Delegated"
  else "Application"

/- First catalog entry whose value equals the requested name (the next(...)
exact-name lookup in the code). -/
def findByValue (l : List PermDef) (v : String) : Option PermDef :=
  l.find? (fun d => d.value == v)

/- Resolution of one requested permission name: look it up, by exact value
match, in appRoles when classified Application (yielding kind Role) and in
oauth2PermissionScopes when classified Delegated (yielding kind Scope). -/
def resolvePermission (cat : Catalog) (p : String) : Option (String × String) :=
  if permissionType p = "Application" then
    (findByValue cat.appRoles p).map (fun d => (d.id, "Role"))
  else
    (findByValue cat.oauth2PermissionScopes p).map (fun d => (d.id, "Scope"))

/- One element of a resourceAccess list: a permission id and its kind. -/
structure ResourceAccessEntry where
  id : String
  type : String
deriving DecidableEq, Repr

/- One requiredResourceAccess entry: a resource API id and its access set. -/
structure RequiredResourceAccess where
  resourceAppId : String
  resourceAccess : List ResourceAccessEntry
deriving DecidableEq, Repr

/- The well-known Microsoft Graph resource API identifier from the api_map. -/
def graphApiId : String := "00000003-0000-0000-c000-000000000000"

/- One loop iteration of add_required_permissions: resolve the name; a miss
is skipped; a resolved pair is appended unless an entry with that id is
already in the access list. -/
def mergeOne (cat : Catalog) (acc : List ResourceAccessEntry) (p : String) : List ResourceAccessEntry :=
  match resolvePermission cat p with
  | none => acc
  | some (pid, pty) =>
    if acc.any (fun ra => ra.id == pid) then acc else acc ++ [⟨pid, pty⟩]

/- The whole permission loop, in source order over the requested names. -/
def mergePermissions (cat : Catalog) (perms : List String) (acc : List ResourceAccessEntry) : List ResourceAccessEntry :=
  match perms with
  | [] => acc
  | p :: rest => mergePermissions cat rest (mergeOne cat acc p)

/- The access list of the first requiredResourceAccess entry for Microsoft
Graph, or the empty default the code supplies when none exists. -/
def getGraphAccess : List RequiredResourceAccess → List ResourceAccessEntry
  | [] => []
  | entry :: rest =>
    if entry.resourceAppId == graphApiId then entry.resourceAccess else getGraphAccess rest

/- Writing the updated Graph access list back: the first Microsoft Graph
entry is updated in place (the code mutates the dict it found), and when none
exists the new entry is appended at the end. -/
def setGraphAccess : List RequiredResourceAccess → List ResourceAccessEntry → List RequiredResourceAccess
  | [], newAccess => [⟨graphApiId, newAccess⟩]
  | entry :: rest, newAccess =>
    if entry.resourceAppId == graphApiId then ⟨graphApiId, newAccess⟩ :: rest
    else entry :: setGraphAccess rest newAccess

/- add_required_permissions as a transformation of the application state
(its requiredResourceAccess list), given the fetched catalog: an empty
request returns with no remote read or write; otherwise the merged Graph
access list is written back with one PATCH carrying the full list. -/
def addRequiredPermissions (cat : Catalog) (permissions : List String) (required : List RequiredResourceAccess) : List RequiredResourceAccess :=
  if permissions.isEmpty then required
  else setGraphAccess required (mergePermissions cat permissions (getGraphAccess required))

/- The fields the orchestrator reads from POST /applications: the directory
object id and the client id appId. -/
structure AppRec where
  id : String
  appId : String
deriving DecidableEq, Repr

/- The fields the orchestrator reads from addPassword: the one-time secret
text and the credential id. -/
structure SecretRec where
  secretText : String
  id : String
deriving DecidableEq, Repr

/- The field the orchestrator reads from POST /servicePrincipals. -/
structure SPRec where
  id : String
deriving DecidableEq, Repr

/- The Graph client as the orchestrator sees it: one function per remote
step, each either returning its record or raising (Except.error carries the
str() of the raised exception). -/
structure StubProvider where
  createApp : Jv → Jv → Except String AppRec
  createSecret : String → Except String SecretRec
  addPerms : String → Jv → Except String Unit
  createSP : String → Except String SPRec

/- The remote steps of the create_app_registration plan, used to trace which
provider calls a run performs; there is no rollback or delete step. -/
inductive Step where
  | createApp
  | createSecret
  | addPerms
  | createSP
deriving DecidableEq, Repr

/- The data mapping of a successful create_app_registration envelope. -/
structure EnvData where
  applicationId : String
  objectId : String
  servicePrincipalId : String
  clientSecret : String
deriving DecidableEq, Repr

/- The OutcomeEnvelope: failure envelopes in the code carry no data or
nextSteps keys, modelled as none and the empty list. -/
structure Envelope where
  success : Bool
  message : String
  data : Option EnvData
  nextSteps : List String
deriving DecidableEq, Repr

/- The failure envelope built by the except clause of
_create_app_registration. -/
def errCreate (e : String) : Envelope :=
  ⟨false, "Error creating app registration: " ++ e, none, []⟩

/- The success message of _create_app_registration, naming the app. -/
def successMessage (appName : Jv) : String :=
  "App registration \x27" ++ jvRender appName ++ "\x27 created successfully."

/- The two advisory nextSteps strings of the success envelope. -/
def successNextSteps : List String :=
  ["Store the client secret securely (it won\x27t be shown again).",
   "Admin consent may be required for application permissions."]

/- The success envelope of _create_app_registration, its data populated from
the application, secret and service-principal step results. -/
def successEnvelope (appName : Jv) (app : AppRec) (sec : SecretRec) (sp : SPRec) : Envelope :=
  ⟨true, successMessage appName, some ⟨app.appId, app.id, sp.id, sec.secretText⟩, successNextSteps⟩

/- The _create_app_registration plan: create the application, create a client
secret, merge permissions when any were requested (the if permissions guard
is Python truthiness), create the service principal, then assemble the
envelope; the first raising step short-circuits into the failure envelope.
The second component records the provider calls made, in order. -/
def createAppRegistrationRun (g : StubProvider) (appName permissions description : Jv) : Envelope × List Step :=
  match g.createApp appName description with
  | Except.error e => (errCreate e, [Step.createApp])
  | Except.ok app =>
    match g.createSecret app.id with
    | Except.error e => (errCreate e, [Step.createApp, Step.createSecret])
    | Except.ok sec =>
      if jvTruthy permissions then
        match g.addPerms app.id permissions with
        | Except.error e =>
          (errCreate e, [Step.createApp, Step.createSecret, Step.addPerms])
        | Except.ok _ =>
          match g.createSP app.appId with
          | Except.error e =>
            (errCreate e, [Step.createApp, Step.createSecret, Step.addPerms, Step.createSP])
          | Except.ok sp =>
            (successEnvelope appName app sec sp,
             [Step.createApp, Step.createSecret, Step.addPerms, Step.createSP])
      else
        match g.createSP app.appId with
        | Except.error e => (errCreate e, [Step.createApp, Step.createSecret, Step.createSP])
        | Except.ok sp =>
          (successEnvelope appName app sec sp, [Step.createApp, Step.createSecret, Step.createSP])

/- The fixed failure envelope for an unparsable command. -/
def parseFailEnv : Envelope :=
  ⟨false, "Failed to parse command. Please try rephrasing.", none, []⟩

/- The dispatch of process_command on the parsed action value; the dict
indexing of action and appName can raise KeyError, modelled by dGet. -/
def dispatchAction (g : StubProvider) (d : Dict) : Except String (Envelope × List Step) :=
  match dGet d "action" with
  | Except.error e => Except.error e
  | Except.ok act =>
    if act == Jv.s "create_app_registration" then
      match dGet d "appName" with
      | Except.error e => Except.error e
      | Except.ok nm =>
        Except.ok (createAppRegistrationRun g nm (dGetD d "permissions" (Jv.l []))
          (dGetD d "description" (Jv.s "")))
    else if act == Jv.s "update_app_registration" then
      Except.ok (⟨false, "Update app registration not implemented yet", none, []⟩, [])
    else if act == Jv.s "delete_app_registration" then
      Except.ok (⟨false, "Delete app registration not implemented yet", none, []⟩, [])
    else
      Except.ok (⟨false, "Unknown action: " ++ jvRender act, none, []⟩, [])

/- The body of process_command before its boundary except clause: the parser
may itself raise, return None, or return a dict; a falsy (None or empty)
parse result yields the fixed parse-failure envelope, otherwise dispatch. -/
def processCommandE (g : StubProvider) (parseResult : Except String (Option Dict)) : Except String (Envelope × List Step) :=
  match parseResult with
  | Except.error e => Except.error e
  | Except.ok none => Except.ok (parseFailEnv, [])
  | Except.ok (some d) =>
    if d.isEmpty then Except.ok (parseFailEnv, []) else dispatchAction g d

/- process_command with its boundary except clause: any exception escaping
the body is converted into the failure envelope naming the error. -/
def processCommand (g : StubProvider) (parseResult : Except String (Option Dict)) : Envelope × List Step :=
  match processCommandE g parseResult with
  | Except.ok r => r
  | Except.error e => (⟨false, "Error processing command: " ++ e, none, []⟩, [])

/- Helper: one merge step only ever appends to the access list. -/
theorem mergeOne_eq_append (cat : Catalog) (acc : List ResourceAccessEntry) (p : String) :
    ∃ extra, mergeOne cat acc p = acc ++ extra := by
  unfold mergeOne
  cases hres : resolvePermission cat p with
  | none => exact ⟨[], by simp⟩
  | some pr =>
    cases pr with
    | mk pid pty =>
      by_cases hany : acc.any (fun ra => ra.id == pid) = true
      · exact ⟨[], by simp [hany]⟩
      · exact ⟨[⟨pid, pty⟩], by simp [hany]⟩

/- Helper: the whole merge loop only ever appends to the access list. -/
theorem mergePermissions_eq_append (cat : Catalog) :
    ∀ (perms : List String) (acc : List ResourceAccessEntry),
      ∃ extra, mergePermissions cat perms acc = acc ++ extra := by
  intro perms
  induction perms with
  | nil => intro acc; exact ⟨[], by simp [mergePermissions]⟩
  | cons p rest ih =>
    intro acc
    obtain ⟨e1, h1⟩ := mergeOne_eq_append cat acc p
    obtain ⟨e2, h2⟩ := ih (mergeOne cat acc p)
    refine ⟨e1 ++ e2, ?_⟩
    show mergePermissions cat rest (mergeOne cat acc p) = acc ++ (e1 ++ e2)
    rw [h2, h1, List.append_assoc]

/- Helper: a predicate satisfied somewhere in the access list stays satisfied
after merging. -/
theorem mergePermissions_any_mono (cat : Catalog) (perms : List String)
    (acc : List ResourceAccessEntry) (f : ResourceAccessEntry → Bool)
    (h : acc.any f = true) : (mergePermissions cat perms acc).any f = true := by
  obtain ⟨extra, he⟩ := mergePermissions_eq_append cat perms acc
  rw [he, List.any_append, h, Bool.true_or]

/- Helper: after the merge loop, every requested name the catalog resolves
has its id present in the access list. -/
theorem mergePermissions_resolved_present (cat : Catalog) :
    ∀ (perms : List String) (acc : List ResourceAccessEntry) (p : String)
      (pid pty : String), p ∈ perms → resolvePermission cat p = some (pid, pty) →
      (mergePermissions cat perms acc).any (fun ra => ra.id == pid) = true := by
  intro perms
  induction perms with
  | nil => intro acc p pid pty hmem; exact absurd hmem (List.not_mem_nil p)
  | cons q rest ih =>
    intro acc p pid pty hmem hres
    show (mergePermissions cat rest (mergeOne cat acc q)).any (fun ra => ra.id == pid) = true
    rcases List.mem_cons.mp hmem with heq | htail
    · subst heq
      apply mergePermissions_any_mono
      unfold mergeOne
      rw [hres]
      by_cases hany : acc.any (fun ra => ra.id == pid) = true
      · simp [hany]
      · simp [hany]
    · exact ih (mergeOne cat acc q) p pid pty htail hres

/- Helper: when every resolvable requested id is already present, the merge
loop is the identity. -/
theorem mergePermissions_fixed (cat : Catalog) :
    ∀ (perms : List String) (acc : List ResourceAccessEntry),
      (∀ p, p ∈ perms → ∀ pid pty, resolvePermission cat p = some (pid, pty) →
        acc.any (fun ra => ra.id == pid) = true) →
      mergePermissions cat perms acc = acc := by
  intro perms
  induction perms with
  | nil => intro acc _; rfl
  | cons q rest ih =>
    intro acc h
    have hone : mergeOne cat acc q = acc := by
      unfold mergeOne
      cases hres : resolvePermission cat q with
      | none => rfl
      | some pr =>
        cases pr with
        | mk pid pty =>
          have hq := h q (List.mem_cons_self q rest) pid pty hres
          simp [hq]
    show mergePermissions cat rest (mergeOne cat acc q) = acc
    rw [hone]
    exact ih acc (fun p hp => h p (List.mem_cons_of_mem q hp))

/- Helper: the merge loop is idempotent on the access list. -/
theorem mergePermissions_idem (cat : Catalog) (perms : List String)
    (acc : List ResourceAccessEntry) :
    mergePermissions cat perms (mergePermissions cat perms acc) = mergePermissions cat perms acc :=
  mergePermissions_fixed cat perms (mergePermissions cat perms acc)
    (fun p hp pid pty hres => mergePermissions_resolved_present cat perms acc p pid pty hp hres)

/- Helper: reading the Graph access list back after writing it. -/
theorem getGraphAccess_setGraphAccess (l : List RequiredResourceAccess)
    (a : List ResourceAccessEntry) : getGraphAccess (setGraphAccess l a) = a := by
  induction l with
  | nil => simp [setGraphAccess, getGraphAccess]
  | cons hd tl ih =>
    by_cases h : hd.resourceAppId == graphApiId
    · simp [setGraphAccess, getGraphAccess, h]
    · simp [setGraphAccess, getGraphAccess, h, ih]

/- Helper: a second write overwrites the first. -/
theorem setGraphAccess_setGraphAccess (l : List RequiredResourceAccess)
    (a b : List ResourceAccessEntry) :
    setGraphAccess (setGraphAccess l a) b = setGraphAccess l b := by
  induction l with
  | nil => simp [setGraphAccess]
  | cons hd tl ih =>
    by_cases h : hd.resourceAppId == graphApiId
    · simp [setGraphAccess, h]
    · simp [setGraphAccess, h, ih]

/- Helper: writing the Graph access list does not disturb entries for other
resource APIs, position by position. -/
theorem setGraphAccess_get_other (a : List ResourceAccessEntry) :
    ∀ (l : List RequiredResourceAccess) (i : Nat) (e : RequiredResourceAccess),
      l.get? i = some e → e.resourceAppId ≠ graphApiId →
      (setGraphAccess l a).get? i = some e := by
  intro l
  induction l with
  | nil => intro i e hget; simp at hget
  | cons hd tl ih =>
    intro i e hget hne
    by_cases h : hd.resourceAppId == graphApiId
    · cases i with
      | zero =>
        simp at hget
        subst hget
        exact absurd (by simpa using h) hne
      | succ j =>
        simp [setGraphAccess, h] at hget ⊢
        exact hget
    · cases i with
      | zero =>
        simp at hget
        subst hget
        simp [setGraphAccess, h]
      | succ j =>
        simp only [List.get?] at hget
        simp only [setGraphAccess, h, Bool.false_eq_true, if_false, List.get?]
        exact ih j e hget hne

/- Helper: a merge loop skips a name the catalog does not resolve, wherever
it sits in the request list. -/
theorem mergePermissions_skip_unresolved (cat : Catalog) (p : String)
    (h : resolvePermission cat p = none) :
    ∀ (pre post : List String) (acc : List ResourceAccessEntry),
      mergePermissions cat (pre ++ p :: post) acc = mergePermissions cat (pre ++ post) acc := by
  intro pre
  induction pre with
  | nil =>
    intro post acc
    show mergePermissions cat post (mergeOne cat acc p) = mergePermissions cat post acc
    have : mergeOne cat acc p = acc := by unfold mergeOne; rw [h]
    rw [this]
  | cons q rest ih =>
    intro post acc
    show mergePermissions cat (rest ++ p :: post) (mergeOne cat acc q)
        = mergePermissions cat (rest ++ post) (mergeOne cat acc q)
    exact ih post (mergeOne cat acc q)

/- A stub provider that succeeds at every step, for concrete runs. -/
def okStub : StubProvider :=
  ⟨fun _ _ => Except.ok ⟨"obj-1", "client-1"⟩,
   fun _ => Except.ok ⟨"sec-val", "sec-1"⟩,
   fun _ _ => Except.ok (),
   fun _ => Except.ok ⟨"sp-1"⟩⟩

/- A stub provider whose secret-creation step raises after application
creation succeeded. -/
def failSecretStub : StubProvider :=
  ⟨fun _ _ => Except.ok ⟨"obj-1", "client-1"⟩,
   fun _ => Except.error "boom",
   fun _ _ => Except.ok (),
   fun _ => Except.ok ⟨"sp-1"⟩⟩

/-- C1: when all remote steps of the create_app_registration plan succeed,
the returned envelope has success true, a message naming the application,
data populated with applicationId (the client id appId), objectId (the
directory id), servicePrincipalId and clientSecret from the corresponding
step results, and exactly two nextSteps entries. -/
theorem createAppRegistration_success_envelope (g : StubProvider)
    (n p d : Jv) (app : AppRec) (sec : SecretRec) (sp : SPRec)
    (h1 : g.createApp n d = Except.ok app)
    (h2 : g.createSecret app.id = Except.ok sec)
    (h3 : jvTruthy p = true → g.addPerms app.id p = Except.ok ())
    (h4 : g.createSP app.appId = Except.ok sp) :
    (createAppRegistrationRun g n p d).1 =
      ⟨true, successMessage n, some ⟨app.appId, app.id, sp.id, sec.secretText⟩,
        successNextSteps⟩ ∧
    (createAppRegistrationRun g n p d).1.nextSteps.length = 2 := by
  have hrun : createAppRegistrationRun g n p d =
      (successEnvelope n app sec sp,
        if jvTruthy p then
          [Step.createApp, Step.createSecret, Step.addPerms, Step.createSP]
        else [Step.createApp, Step.createSecret, Step.createSP]) := by
    by_cases hp : jvTruthy p = true
    · simp only [createAppRegistrationRun, h1, h2, if_pos hp, h3 hp, h4]
    · simp only [createAppRegistrationRun, h1, h2, if_neg hp, h4]
  rw [hrun]
  exact ⟨rfl, rfl⟩

/-- C1 witness: the concrete run of the spec's testable property against a
stub provider succeeding at every step. -/
theorem createAppRegistration_success_envelope_witness :
    (createAppRegistrationRun okStub (Jv.s "Foo") (Jv.l ["Sites.Read.All"]) (Jv.s "desc")).1 =
      ⟨true, successMessage (Jv.s "Foo"), some ⟨"client-1", "obj-1", "sp-1", "sec-val"⟩,
        successNextSteps⟩ ∧
    (createAppRegistrationRun okStub (Jv.s "Foo") (Jv.l ["Sites.Read.All"]) (Jv.s "desc")).1.nextSteps.length = 2 :=
  createAppRegistration_success_envelope okStub (Jv.s "Foo") (Jv.l ["Sites.Read.All"])
    (Jv.s "desc") ⟨"obj-1", "client-1"⟩ ⟨"sec-val", "sec-1"⟩ ⟨"sp-1"⟩ rfl rfl (fun _ => rfl) rfl

/-- C2: when a step of the create_app_registration plan fails, no later step
of the plan executes (the trace equals exactly the steps attempted, and in
particular contains no service-principal creation after an earlier failure),
the envelope has success false carrying the triggering error message, and no
rollback call exists (the Step type has no delete or rollback operation and
the trace lists every provider call made). -/
theorem createAppRegistration_failure_aborts (g : StubProvider) (n p d : Jv) :
    (∀ e, g.createApp n d = Except.error e →
      createAppRegistrationRun g n p d = (errCreate e, [Step.createApp])) ∧
    (∀ app e, g.createApp n d = Except.ok app → g.createSecret app.id = Except.error e →
      createAppRegistrationRun g n p d = (errCreate e, [Step.createApp, Step.createSecret])) ∧
    (∀ app sec e, g.createApp n d = Except.ok app → g.createSecret app.id = Except.ok sec →
      jvTruthy p = true → g.addPerms app.id p = Except.error e →
      createAppRegistrationRun g n p d =
        (errCreate e, [Step.createApp, Step.createSecret, Step.addPerms])) := by
  refine ⟨?_, ?_, ?_⟩
  · intro e h1
    simp only [createAppRegistrationRun, h1]
  · intro app e h1 h2
    simp only [createAppRegistrationRun, h1, h2]
  · intro app sec e h1 h2 hp h3
    simp only [createAppRegistrationRun, h1, h2, if_pos hp, h3]

/-- C2 witness: with a stub provider whose secret step raises after the
application was created, the run stops at the secret step with a failure
envelope and never calls the service-principal step. -/
theorem createAppRegistration_failure_aborts_witness :
    createAppRegistrationRun failSecretStub (Jv.s "Foo") (Jv.l ["Sites.Read.All"]) (Jv.s "desc") =
      (errCreate "boom", [Step.createApp, Step.createSecret]) :=
  (createAppRegistration_failure_aborts failSecretStub (Jv.s "Foo")
    (Jv.l ["Sites.Read.All"]) (Jv.s "desc")).2.1 ⟨"obj-1", "client-1"⟩ "boom" rfl rfl

/-- C3: process_command is total at the orchestration boundary: for every
provider behaviour and every parser outcome, either the body produced an
envelope and process_command returns it, or the body raised and
process_command returns the failure envelope of shape success false with a
message naming the error; no exception propagates out. -/
theorem processCommand_total_boundary (g : StubProvider)
    (pr : Except String (Option Dict)) :
    (∃ r, processCommandE g pr = Except.ok r ∧ processCommand g pr = r) ∨
    (∃ e, processCommandE g pr = Except.error e ∧
      processCommand g pr =
        (⟨false, "Error processing command: " ++ e, none, []⟩, [])) := by
  cases h : processCommandE g pr with
  | ok r => exact Or.inl ⟨r, rfl, by simp [processCommand, h]⟩
  | error e => exact Or.inr ⟨e, rfl, by simp [processCommand, h]⟩

/- A model reply whose object carries an action but no appName. -/
def noNameReply : String :=
  "\x7b\x22action\x22:\x22create_app_registration\x22\x7d"

/- A model reply whose object lacks the action key. -/
def noActionReply : String :=
  "\x7b\x22appName\x22:\x22Foo\x22\x7d"

/-- C4: parsing fails whenever the decoded object lacks the action key, and
for action create_app_registration it additionally fails whenever appName is
absent; when the validations pass the decoded object itself is returned as
the action descriptor. -/
theorem parseCommand_validation (loads : String → Option Dict) (reply : String)
    (d : Dict) (hdec : loads (extractJson reply) = some d) :
    (d.lookup "action" = none → parseCommandFromReply loads reply = none) ∧
    (d.lookup "action" = some (Jv.s "create_app_registration") →
      d.lookup "appName" = none → parseCommandFromReply loads reply = none) ∧
    (validateParsedData d = true → parseCommandFromReply loads reply = some d) := by
  refine ⟨?_, ?_, ?_⟩
  · intro hact
    have hv : validateParsedData d = false := by simp [validateParsedData, hact]
    simp [parseCommandFromReply, decodeAndValidate, hdec, hv]
  · intro hact happ
    have hv : validateParsedData d = false := by
      simp [validateParsedData, hact, happ]
    simp [parseCommandFromReply, decodeAndValidate, hdec, hv]
  · intro hv
    simp [parseCommandFromReply, decodeAndValidate, hdec, hv]

/-- C4 witness: a reply missing action parses to none, a reply whose action
is create_app_registration but lacking appName parses to none, and the
prose-wrapped valid reply parses to its decoded object. -/
theorem parseCommand_validation_witness :
    jsonLoads (extractJson noActionReply) = some [("appName", Jv.s "Foo")] ∧
    parseCommandFromReply jsonLoads noActionReply = none ∧
    parseCommandFromReply jsonLoads noNameReply = none ∧
    parseCommandFromReply jsonLoads sureReply =
      some [("action", Jv.s "create_app_registration"), ("appName", Jv.s "Foo")] :=
  ⟨by decide,
   (parseCommand_validation jsonLoads noActionReply [("appName", Jv.s "Foo")] (by decide)).1 rfl,
   (parseCommand_validation jsonLoads noNameReply
     [("action", Jv.s "create_app_registration")] (by decide)).2.1 rfl rfl,
   (parseCommand_validation jsonLoads sureReply
     [("action", Jv.s "create_app_registration"), ("appName", Jv.s "Foo")] (by decide)).2.2 rfl⟩

/-- C9: parse_command decodes the span from the first opening brace to the
last closing brace when such a span exists, tolerating surrounding prose,
and otherwise falls back to decoding the entire (stripped) reply; a reply
wrapping the object in prose yields the decoded action descriptor. -/
theorem parseCommand_brace_span (loads : String → Option Dict) (reply : String) :
    (∀ st en, (stripChars reply.toList).findIdx? (fun c => c = lbraceC) = some st →
      rfindIdx (stripChars reply.toList) rbraceC = some en → st < en + 1 →
      parseCommandFromReply loads reply =
        decodeAndValidate loads
          (String.mk (((stripChars reply.toList).drop st).take (en + 1 - st)))) ∧
    ((stripChars reply.toList).findIdx? (fun c => c = lbraceC) = none ∨
      rfindIdx (stripChars reply.toList) rbraceC = none →
      parseCommandFromReply loads reply =
        decodeAndValidate loads (String.mk (stripChars reply.toList))) ∧
    parseCommandFromReply jsonLoads sureReply =
      some [("action", Jv.s "create_app_registration"), ("appName", Jv.s "Foo")] := by
  refine ⟨?_, ?_, by decide⟩
  · intro st en hf hr hlt
    simp only [parseCommandFromReply, extractJson, extractJsonChars, hf, hr, if_pos hlt]
  · intro hdisj
    rcases hdisj with hf | hr
    · cases hr : rfindIdx (stripChars reply.toList) rbraceC with
      | none =>
        simp only [parseCommandFromReply, extractJson, extractJsonChars, hf, hr]
      | some en =>
        simp only [parseCommandFromReply, extractJson, extractJsonChars, hf, hr]
    · cases hf : (stripChars reply.toList).findIdx? (fun c => c = lbraceC) with
      | none =>
        simp only [parseCommandFromReply, extractJson, extractJsonChars, hf, hr]
      | some st =>
        simp only [parseCommandFromReply, extractJson, extractJsonChars, hf, hr]

/-- C9 witness: on the prose-wrapped reply the first opening brace sits at
index 6 and the last closing brace at index 57, and parse_command decodes
exactly that span. -/
theorem parseCommand_brace_span_witness :
    (stripChars sureReply.toList).findIdx? (fun c => c = lbraceC) = some 6 ∧
    rfindIdx (stripChars sureReply.toList) rbraceC = some 57 ∧
    parseCommandFromReply jsonLoads sureReply =
      decodeAndValidate jsonLoads
        (String.mk (((stripChars sureReply.toList).drop 6).take (57 + 1 - 6))) :=
  ⟨by decide, by decide,
   (parseCommand_brace_span jsonLoads sureReply).1 6 57 (by decide) (by decide) (by decide)⟩


/-- C5: before each Graph call the cached token expiry is checked: a call
made while a cached token is set and now is strictly before its cached
expiry reuses it with zero credential fetches; a call with the token absent,
the expiry absent, or the cached expiry reached performs exactly one
credential fetch and caches the fresh token with expiry now plus expires_on
minus the 300-second (5-minute) safety margin. -/
theorem getToken_cache_policy (resp : TokenResponse) (now : Int) (s : TokenState) :
    (∀ t e, s.token = some t → t ≠ "" → s.tokenExpires = some e → now < e →
      getToken resp now s = (t, s, 0)) ∧
    (s.token = none ∨ s.tokenExpires = none →
      getToken resp now s =
        (resp.token, ⟨some resp.token, some (now + (resp.expiresOn - 300))⟩, 1)) ∧
    (∀ e, s.tokenExpires = some e → e ≤ now →
      getToken resp now s =
        (resp.token, ⟨some resp.token, some (now + (resp.expiresOn - 300))⟩, 1)) := by
  refine ⟨?_, ?_, ?_⟩
  · intro t e ht hne hexp hlt
    have hcond : t ≠ "" ∧ now < e := ⟨hne, hlt⟩
    simp only [getToken, ht, hexp, if_pos hcond]
  · intro hdisj
    rcases hdisj with ht | hexp
    · simp only [getToken, ht]
    · cases htok : s.token with
      | none => simp only [getToken, htok]
      | some t => simp only [getToken, htok, hexp]
  · intro e hexp hle
    cases htok : s.token with
    | none => simp only [getToken, htok]
    | some t =>
      have hnot : ¬ (t ≠ "" ∧ now < e) := fun h => absurd h.2 (not_lt.mpr hle)
      simp only [getToken, htok, hexp, if_neg hnot]

/-- C5 witness: a call at time 1000 against a cache expiring at 2000 reuses
the cached token with no fetch; a call with an empty cache performs one
fetch and caches expiry 1000 plus 3600 minus 300; a call at the cached
expiry performs one fetch. -/
theorem getToken_cache_policy_witness :
    getToken ⟨"t2", 3600⟩ 1000 ⟨some "t1", some 2000⟩ = ("t1", ⟨some "t1", some 2000⟩, 0) ∧
    getToken ⟨"t2", 3600⟩ 1000 ⟨none, none⟩ = ("t2", ⟨some "t2", some 4300⟩, 1) ∧
    getToken ⟨"t2", 3600⟩ 2000 ⟨some "t1", some 2000⟩ = ("t2", ⟨some "t2", some 5300⟩, 1) :=
  ⟨(getToken_cache_policy ⟨"t2", 3600⟩ 1000 ⟨some "t1", some 2000⟩).1 "t1" 2000 rfl
      (by decide) rfl (by decide),
   (getToken_cache_policy ⟨"t2", 3600⟩ 1000 ⟨none, none⟩).2.1 (Or.inl rfl),
   (getToken_cache_policy ⟨"t2", 3600⟩ 2000 ⟨some "t1", some 2000⟩).2.2 2000 rfl (by decide)⟩

/-- C6 counterexample: the claim classifies every permission string whose
last dot-separated segment is not All as delegated, but the code classifies
a dot-free string such as offline_access as an application permission (the
default branch), so a catalog carrying it only among the delegated scopes
never resolves it. -/
theorem permission_classification_counterexample :
    lastSeg (splitOnChar "offline_access".toList dotC) ≠ "All".toList ∧
    permissionType "offline_access" ≠ "Delegated" ∧
    permissionType "offline_access" = "Application" ∧
    resolvePermission ⟨[], [⟨"offline_access", "perm-id-1"⟩]⟩ "offline_access" = none :=
  ⟨by decide, by decide, by decide, by decide⟩

/-- C6 amended: a permission string containing a dot whose last segment is
All is classified application and resolved by exact name match against the
application-role catalog; a string containing a dot whose last segment is
not All is classified delegated and resolved against the delegated-scope
catalog; a string containing no dot is classified application (the default)
and resolved against the application-role catalog. -/
theorem permission_classification_amended (cat : Catalog) (p : String) :
    (containsChar p.toList dotC = true → lastSeg (splitOnChar p.toList dotC) = "All".toList →
      permissionType p = "Application" ∧
      resolvePermission cat p = (findByValue cat.appRoles p).map (fun d => (d.id, "Role"))) ∧
    (containsChar p.toList dotC = true → lastSeg (splitOnChar p.toList dotC) ≠ "All".toList →
      permissionType p = "Delegated" ∧
      resolvePermission cat p =
        (findByValue cat.oauth2PermissionScopes p).map (fun d => (d.id, "Scope"))) ∧
    (containsChar p.toList dotC = false →
      permissionType p = "Application" ∧
      resolvePermission cat p = (findByValue cat.appRoles p).map (fun d => (d.id, "Role"))) := by
  refine ⟨?_, ?_, ?_⟩
  · intro hdot hall
    have hdot2 : containsChar p.data dotC = true := hdot
    have hall2 : lastSeg (splitOnChar p.data dotC) = ['A', 'l', 'l'] := hall
    have hpt : permissionType p = "Application" := by
      simp [permissionType, hdot2, hall2]
    exact ⟨hpt, by simp [resolvePermission, hpt]⟩
  · intro hdot hall
    have hdot2 : containsChar p.data dotC = true := hdot
    have hall2 : ¬ lastSeg (splitOnChar p.data dotC) = ['A', 'l', 'l'] := hall
    have hpt : permissionType p = "Delegated" := by
      simp [permissionType, hdot2, hall2]
    refine ⟨hpt, ?_⟩
    rw [resolvePermission, hpt]
    simp
  · intro hdot
    have hdot2 : containsChar p.data dotC = false := hdot
    have hpt : permissionType p = "Application" := by
      simp [permissionType, hdot2]
    exact ⟨hpt, by simp [resolvePermission, hpt]⟩

/- The concrete permission catalog used by the witnesses. -/
def catW : Catalog :=
  ⟨[⟨"Sites.Read.All", "id-a"⟩], [⟨"User.Read", "id-d"⟩]⟩

/-- C6 amended witness: Sites.Read.All resolves via the application roles as
Role, User.Read via the delegated scopes as Scope. -/
theorem permission_classification_amended_witness :
    (containsChar "Sites.Read.All".toList dotC = true ∧
      lastSeg (splitOnChar "Sites.Read.All".toList dotC) = "All".toList ∧
      permissionType "Sites.Read.All" = "Application" ∧
      resolvePermission catW "Sites.Read.All" =
        (findByValue catW.appRoles "Sites.Read.All").map (fun d => (d.id, "Role"))) ∧
    (containsChar "User.Read".toList dotC = true ∧
      lastSeg (splitOnChar "User.Read".toList dotC) ≠ "All".toList ∧
      permissionType "User.Read" = "Delegated" ∧
      resolvePermission catW "User.Read" =
        (findByValue catW.oauth2PermissionScopes "User.Read").map (fun d => (d.id, "Scope"))) :=
  ⟨⟨by decide, by decide,
    (permission_classification_amended catW "Sites.Read.All").1 (by decide) (by decide)⟩,
   ⟨by decide, by decide,
    (permission_classification_amended catW "User.Read").2.1 (by decide) (by decide)⟩⟩

/-- C7: a resolved (id, kind) pair is appended to the Graph access set only
when no entry with that id is present, and the whole call is idempotent on
the application state: running add_required_permissions a second time with
the same request against the state the first call produced changes nothing,
so no duplicate entry ever appears in requiredResourceAccess. -/
theorem addRequiredPermissions_idempotent (cat : Catalog) (perms : List String)
    (required : List RequiredResourceAccess) :
    addRequiredPermissions cat perms (addRequiredPermissions cat perms required) =
      addRequiredPermissions cat perms required ∧
    (∀ acc p pid pty, resolvePermission cat p = some (pid, pty) →
      (acc.any (fun ra => ra.id == pid) = true → mergeOne cat acc p = acc) ∧
      (acc.any (fun ra => ra.id == pid) = false →
        mergeOne cat acc p = acc ++ [⟨pid, pty⟩])) := by
  constructor
  · cases hp : perms.isEmpty with
    | true => simp [addRequiredPermissions, hp]
    | false =>
      simp only [addRequiredPermissions, hp, Bool.false_eq_true, if_false,
        getGraphAccess_setGraphAccess, mergePermissions_idem,
        setGraphAccess_setGraphAccess]
  · intro acc p pid pty hres
    constructor
    · intro hany
      unfold mergeOne
      rw [hres]
      simp [hany]
    · intro hany
      unfold mergeOne
      rw [hres]
      simp [hany]

/-- C7 witness: merging Sites.Read.All into a state already carrying its id
appends nothing, and repeating the whole call on the produced state is the
identity. -/
theorem addRequiredPermissions_idempotent_witness :
    resolvePermission catW "Sites.Read.All" = some ("id-a", "Role") ∧
    mergeOne catW [⟨"id-a", "Role"⟩] "Sites.Read.All" = [⟨"id-a", "Role"⟩] ∧
    addRequiredPermissions catW ["Sites.Read.All"]
        (addRequiredPermissions catW ["Sites.Read.All"] []) =
      addRequiredPermissions catW ["Sites.Read.All"] [] :=
  ⟨by decide,
   ((addRequiredPermissions_idempotent catW ["Sites.Read.All"] []).2
     [⟨"id-a", "Role"⟩] "Sites.Read.All" "id-a" "Role" (by decide)).1 (by decide),
   (addRequiredPermissions_idempotent catW ["Sites.Read.All"] []).1⟩

/-- C8: a requested permission name the catalog resolves in neither the
application-role list nor the delegated-scope list is skipped: the merge of
the request list with the miss equals the merge without it, processing the
remaining names, and the call still ends by writing the merged list back. -/
theorem addRequiredPermissions_skip_miss (cat : Catalog) (p : String)
    (pre post : List String) (required : List RequiredResourceAccess)
    (acc : List ResourceAccessEntry) (h : resolvePermission cat p = none) :
    mergePermissions cat (pre ++ p :: post) acc = mergePermissions cat (pre ++ post) acc ∧
    addRequiredPermissions cat (pre ++ p :: post) required =
      setGraphAccess required (mergePermissions cat (pre ++ post) (getGraphAccess required)) := by
  constructor
  · exact mergePermissions_skip_unresolved cat p h pre post acc
  · have hne : (pre ++ p :: post).isEmpty = false := by
      cases pre with
      | nil => rfl
      | cons q qs => rfl
    simp only [addRequiredPermissions, hne, Bool.false_eq_true, if_false,
      mergePermissions_skip_unresolved cat p h pre post]

/-- C8 witness: a request carrying the unresolvable name Nope.Thing between
two resolvable names merges exactly as the request without it, and the call
still performs its final update. -/
theorem addRequiredPermissions_skip_miss_witness :
    resolvePermission catW "Nope.Thing" = none ∧
    mergePermissions catW ["Sites.Read.All", "Nope.Thing", "User.Read"] [] =
      mergePermissions catW ["Sites.Read.All", "User.Read"] [] ∧
    addRequiredPermissions catW ["Sites.Read.All", "Nope.Thing", "User.Read"] [] =
      setGraphAccess []
        (mergePermissions catW ["Sites.Read.All", "User.Read"] (getGraphAccess [])) :=
  ⟨by decide,
   (addRequiredPermissions_skip_miss catW "Nope.Thing" ["Sites.Read.All"] ["User.Read"]
     [] [] (by decide)).1,
   (addRequiredPermissions_skip_miss catW "Nope.Thing" ["Sites.Read.All"] ["User.Read"]
     [] [] (by decide)).2⟩

/-- C10: with a non-empty request the single PATCH preserves the fetched
application's pre-existing content: entries for resource APIs other than
Microsoft Graph are unchanged at their positions, and the Microsoft Graph
access set only grows by appending, so every pre-existing (id, type) pair
remains present. -/
theorem addRequiredPermissions_frame (cat : Catalog) (perms : List String)
    (required : List RequiredResourceAccess) (hne : perms ≠ []) :
    (∀ i e, required.get? i = some e → e.resourceAppId ≠ graphApiId →
      (addRequiredPermissions cat perms required).get? i = some e) ∧
    (∃ extra, getGraphAccess (addRequiredPermissions cat perms required) =
      getGraphAccess required ++ extra) ∧
    (∀ ra, ra ∈ getGraphAccess required →
      ra ∈ getGraphAccess (addRequiredPermissions cat perms required)) := by
  have hemp : perms.isEmpty = false := by
    cases perms with
    | nil => exact absurd rfl hne
    | cons q qs => rfl
  have hadd : addRequiredPermissions cat perms required =
      setGraphAccess required (mergePermissions cat perms (getGraphAccess required)) := by
    simp only [addRequiredPermissions, hemp, Bool.false_eq_true, if_false]
  refine ⟨?_, ?_, ?_⟩
  · intro i e hget hother
    rw [hadd]
    exact setGraphAccess_get_other _ required i e hget hother
  · rw [hadd, getGraphAccess_setGraphAccess]
    exact mergePermissions_eq_append cat perms (getGraphAccess required)
  · intro ra hmem
    rw [hadd, getGraphAccess_setGraphAccess]
    obtain ⟨extra, hex⟩ := mergePermissions_eq_append cat perms (getGraphAccess required)
    rw [hex]
    exact List.mem_append_left extra hmem

/-- C10 witness: a non-Graph entry at position zero survives the call
unchanged, and a pre-existing Graph pair is still present afterwards. -/
theorem addRequiredPermissions_frame_witness :
    ([⟨"other-api", [⟨"x", "Role"⟩]⟩] : List RequiredResourceAccess).get? 0 =
      some ⟨"other-api", [⟨"x", "Role"⟩]⟩ ∧
    (addRequiredPermissions catW ["Sites.Read.All"]
      [⟨"other-api", [⟨"x", "Role"⟩]⟩]).get? 0 = some ⟨"other-api", [⟨"x", "Role"⟩]⟩ :=
  ⟨by decide,
   (addRequiredPermissions_frame catW ["Sites.Read.All"] [⟨"other-api", [⟨"x", "Role"⟩]⟩]
     (by decide)).1 0 ⟨"other-api", [⟨"x", "Role"⟩]⟩ (by decide) (by decide)⟩
